import Mathlib

/-!
# Shallow embedding of the web-editor `Project` lifecycle manager

This file embeds the `Project` class of the repository (project bundle
loading, dirty/buffer tracking, flush, and the emit pipeline) as pure
Lean definitions, and proves the frozen specification claims about it.

Conventions of the embedding:
* JavaScript object identity of a `ProjectFile` inside the loaded bundle is
  represented by the file's index in the `files` list (the list is never
  structurally mutated after load, only the `text` field of an element is
  overwritten by a flush, so the index is a stable identity).
* The identity-keyed `WeakMap<ProjectFile, ProjectFileData>` side table is
  represented by a total map `Nat → ProjectFileData`; a missing entry and
  the on-demand-created empty entry `{}` are observationally identical
  (`dirty` absent reads as `false`, `model` absent reads as `none`), so the
  total map with that default is a faithful rendering.
* monaco-editor models are represented by a `Model` record carrying a fresh
  numeric `id` (reference identity), the monaco `Uri` path, the language and
  the current buffer `value`.  The external editing surface mutating a
  buffer out of band is represented by the explicit operation
  `Project.setModelValue`.
* Asynchronous external collaborators are passed in as explicit values: the
  bundle fetch + `JSON.parse` outcome of `_loadBundle` is a parameter of
  `Project.load`, the success of the monaco compiler-context registration
  calls is a `Bool` parameter, and the type-checking worker session of
  `emit` is a function from buffer-uri strings to `EmitOutput`.
* Exceptions become `Except ProjError`; each constructor corresponds to one
  `throw new Error(...)` site (or an external rejection) of the source.
-/

set_option autoImplicit false

namespace WebEditor

/-- The `ProjectFileType` enumeration from the bundle interfaces, with the
constructor names used by the source (`getLanguageFromType`). -/
inductive ProjectFileType where
  | Definition
  | TypeScript
  | Lib
  | HTML
  | JavaScript
  | Markdown
  | CSS
  | JSON
  | PlainText
  | XML
  deriving DecidableEq, Repr

/-- `ProjectFile`: `{ name, text, type }`. -/
structure ProjectFile where
  name : String
  text : String
  type : ProjectFileType
  deriving DecidableEq, Repr

/-- The compiler options of the bundle's `tsconfig` that the source reads
(`_setTypeScriptEnvironment` destructures exactly these names). -/
structure CompilerOptions where
  lib : Option (List String)
  noImplicitAny : Option Bool
  noImplicitThis : Option Bool
  noImplicitReturns : Option Bool
  noLib : Option Bool
  noUnusedLocals : Option Bool
  noUnusedParameters : Option Bool
  strictNullChecks : Option Bool
  types : Option (List String)
  deriving DecidableEq, Repr

/-- The bundle's `tsconfig` record: `{ compilerOptions?: {...} }`. -/
structure TsConfig where
  compilerOptions : Option CompilerOptions
  deriving DecidableEq, Repr

/-- `ProjectBundle`: `{ files, environmentFiles, tsconfig }`. -/
structure ProjectBundle where
  files : List ProjectFile
  environmentFiles : List ProjectFile
  tsconfig : TsConfig
  deriving DecidableEq, Repr

/-- A monaco-editor model (editable buffer handle).  `id` renders JavaScript
reference identity (each created model gets a fresh id), `path` is
`monaco.Uri.file(name).path`, `value` is the current buffer content
(`getValue()`), `language` the monaco language id. -/
structure Model where
  id : Nat
  path : String
  language : String
  value : String
  deriving DecidableEq, Repr

/-- The side-table entry `ProjectFileData`; the on-demand empty entry `{}`
reads as `dirty = false`, `model = none`. -/
structure ProjectFileData where
  dirty : Bool
  model : Option Model
  deriving DecidableEq, Repr

/-- The empty side-table entry (`{}` in the source). -/
def emptyFileData : ProjectFileData := { dirty := false, model := none }

/-- The state of a `Project` instance: the loaded bundle (or its absence),
the identity-keyed side table (keyed by file index), and the counter used to
give created models fresh identities. -/
structure ProjectState where
  project : Option ProjectBundle
  fileMap : Nat → ProjectFileData
  nextModelId : Nat

/-- The state of a freshly constructed `Project` instance. -/
def ProjectState.init : ProjectState :=
  { project := none, fileMap := fun _ => emptyFileData, nextModelId := 0 }

/-- `OutputFile` as returned by the worker (`typescript`'s `OutputFile`). -/
structure OutputFile where
  name : String
  text : String
  deriving DecidableEq, Repr

/-- The worker's per-file emit result `{ emitSkipped, outputFiles }`. -/
structure EmitOutput where
  emitSkipped : Bool
  outputFiles : List OutputFile
  deriving DecidableEq, Repr

/-- `EmitFile`: `{ name, text }`, the unit of build output. -/
structure EmitFile where
  name : String
  text : String
  deriving DecidableEq, Repr

/-- The error taxonomy: each constructor corresponds to one `throw`
site of the source, or to an external collaborator's rejection. -/
inductive ProjError where
  /-- `'Project is already loaded.'` -/
  | alreadyLoaded
  /-- `'Project not loaded.'` -/
  | notLoaded
  /-- `'File "<name>" is not part of the project.'` -/
  | unknownFile (filename : String)
  /-- `JSON.parse` failure inside `_loadBundle`. -/
  | malformedBundle
  /-- rejection of the `request(filename)` fetch inside `_loadBundle`. -/
  | transport
  /-- rejection/throw of the monaco compiler-context API during `load`. -/
  | environmentFailure
  deriving DecidableEq, Repr

/-- `getLanguageFromType`, the switch of the source. -/
def getLanguageFromType : ProjectFileType → String
  | ProjectFileType.Definition => "typescript"
  | ProjectFileType.TypeScript => "typescript"
  | ProjectFileType.Lib => "typescript"
  | ProjectFileType.HTML => "html"
  | ProjectFileType.JavaScript => "javascript"
  | ProjectFileType.Markdown => "markdown"
  | ProjectFileType.CSS => "css"
  | ProjectFileType.JSON => "json"
  | ProjectFileType.PlainText => "plaintext"
  | ProjectFileType.XML => "xml"

/-- The `path` component of `monaco.Uri.file(name)`: a leading `/` is added
when the name does not already start with one (percent-encoding and UNC
authorities are outside the scope of this embedding). -/
def uriFilePath (name : String) : String :=
  match name.data with
  | '/' :: _ => name
  | _ => "/" ++ name

/-- `uri.toString()` of `monaco.Uri.file(name)`: `file://` followed by the
path. -/
def uriToString (name : String) : String :=
  "file://" ++ uriFilePath name

/-- `createMonacoModel`: `monaco.editor.createModel(text,
getLanguageFromType(type), monaco.Uri.file(name))`, allocating a fresh model
identity. -/
def createMonacoModel (newId : Nat) (file : ProjectFile) : Model :=
  { id := newId
    path := uriFilePath file.name
    language := getLanguageFromType file.type
    value := file.text }

/-- If `pat` is a prefix of `s`, return the remainder of `s`, else `none`. -/
def dropPrefixQ : List Char → List Char → Option (List Char)
  | [], s => some s
  | _ :: _, [] => none
  | p :: ps, c :: cs => if c = p then dropPrefixQ ps cs else none

/-- Replace the first occurrence of `pat` in the character list by `rep`
(the semantics of JavaScript `String.prototype.replace` with a string or a
non-global regex pattern). -/
def replaceFirstL (pat rep : List Char) : List Char → List Char
  | [] => []
  | c :: cs =>
    match dropPrefixQ pat (c :: cs) with
    | some rest => rep ++ rest
    | none => c :: replaceFirstL pat rep cs

/-- `s.replace(pat, rep)` for a string (or non-global regex) pattern:
replaces only the first occurrence. -/
def replaceFirst (s pat rep : String) : String :=
  String.mk (replaceFirstL pat.data rep.data s.data)

/-- `find(files, ({name}) => name === filename)`, returning the matching
file together with its index.  The index renders the JavaScript reference
identity of the found object. -/
def findFile : List ProjectFile → String → Option (Nat × ProjectFile)
  | [], _ => none
  | f :: fs, n =>
    if f.name = n then some (0, f)
    else (findFile fs n).map (fun p => (p.1 + 1, p.2))

/-- Point update of the side table. -/
def upd (f : Nat → ProjectFileData) (i : Nat) (v : ProjectFileData) :
    Nat → ProjectFileData :=
  fun j => if j = i then v else f j

/-- Overwrite the `text` field of the file at index `j`
(`file.text = ...` on the object at that position). -/
def setTextAt : List ProjectFile → Nat → String → List ProjectFile
  | [], _, _ => []
  | f :: fs, 0, v => { f with text := v } :: fs
  | f :: fs, j + 1, v => f :: setTextAt fs j v

/-- The current buffer content of the file at index `i`: the model's value
when a model exists, else the file's stored text (the model is lazily
created seeded with exactly that text). -/
def bufferValueAt (s : ProjectState) (i : Nat) (f : ProjectFile) : String :=
  match (s.fileMap i).model with
  | some m => m.value
  | none => f.text

/-- A file's type requires worker compilation
(`type === ProjectFileType.Definition || type === ProjectFileType.TypeScript`). -/
def isCompiled (t : ProjectFileType) : Bool :=
  t = ProjectFileType.Definition || t = ProjectFileType.TypeScript

namespace Project

/-- `getFile(filename)`: throws when not loaded, otherwise the first file of
the bundle with the given name (or `none`). -/
def getFile (s : ProjectState) (filename : String) :
    Except ProjError (Option ProjectFile) :=
  match s.project with
  | none => Except.error ProjError.notLoaded
  | some p => Except.ok ((findFile p.files filename).map Prod.snd)

/-- `isLoaded()`. -/
def isLoaded (s : ProjectState) : Bool :=
  s.project.isSome

/-- `getFileModel(filename)`: resolves the file (throwing `NotLoadedError`
via `getFile`, `UnknownFileError` when absent), lazily creates and caches
the monaco model, and returns the cached model. -/
def getFileModel (s : ProjectState) (filename : String) :
    Except ProjError (Model × ProjectState) :=
  match s.project with
  | none => Except.error ProjError.notLoaded
  | some p =>
    match findFile p.files filename with
    | none => Except.error (ProjError.unknownFile filename)
    | some (i, f) =>
      match (s.fileMap i).model with
      | some m => Except.ok (m, s)
      | none =>
        let m := createMonacoModel s.nextModelId f
        Except.ok (m,
          { s with
            fileMap := upd s.fileMap i { s.fileMap i with model := some m }
            nextModelId := s.nextModelId + 1 })

/-- `isFileDirty(filename)`: `Boolean(file && data.dirty)`; throws (via
`getFile`) only when no project is loaded. -/
def isFileDirty (s : ProjectState) (filename : String) :
    Except ProjError Bool :=
  match s.project with
  | none => Except.error ProjError.notLoaded
  | some p =>
    match findFile p.files filename with
    | none => Except.ok false
    | some (i, _) => Except.ok ((s.fileMap i).dirty)

/-- `setFileDirty(filename, reset?)`: `data.dirty = !reset`; throws
`UnknownFileError` for a name not in the project (and `NotLoadedError` via
`getFile` when unloaded).  A call with the `reset` argument omitted is a
call with `reset = false`. -/
def setFileDirty (s : ProjectState) (filename : String) (reset : Bool) :
    Except ProjError ProjectState :=
  match s.project with
  | none => Except.error ProjError.notLoaded
  | some p =>
    match findFile p.files filename with
    | none => Except.error (ProjError.unknownFile filename)
    | some (i, _) =>
      Except.ok
        { s with fileMap := upd s.fileMap i { s.fileMap i with dirty := !reset } }

/-- The external editing surface mutating a buffer out of band
(`model.setValue(v)` on the cached model of the named file); a no-op when no
model has been created. -/
def setModelValue (s : ProjectState) (filename : String) (v : String) :
    ProjectState :=
  match s.project with
  | none => s
  | some p =>
    match findFile p.files filename with
    | none => s
    | some (i, _) =>
      match (s.fileMap i).model with
      | none => s
      | some m =>
        { s with fileMap := upd s.fileMap i { s.fileMap i with model := some { m with value := v } } }

/-- `isFileDirty` as the boolean the `filter` callback of `_updateBundle`
observes (on a loaded project the call cannot throw). -/
def isDirtyB (s : ProjectState) (n : String) : Bool :=
  match isFileDirty s n with
  | Except.ok b => b
  | Except.error _ => false

/-- The indices of the files selected by
`files.filter(({name}) => this.isFileDirty(name))` in `_updateBundle`, in
bundle order. -/
def dirtyIndices (s : ProjectState) (p : ProjectBundle) : List Nat :=
  (List.range p.files.length).filter (fun j =>
    match p.files.get? j with
    | none => false
    | some f => isDirtyB s f.name)

/-- One iteration of the `forEach` body of `_updateBundle` on the file at
index `j`: `file.text = this.getFileModel(file.name).getValue();
this.setFileDirty(file.name, true);`.  The error branches are unreachable on
a loaded project whose own file is being flushed. -/
def flushOne (st : ProjectState) (j : Nat) : ProjectState :=
  match st.project with
  | none => st
  | some p =>
    match p.files.get? j with
    | none => st
    | some f =>
      match getFileModel st f.name with
      | Except.error _ => st
      | Except.ok (m, st1) =>
        let st2 :=
          { st1 with
            project := st1.project.map (fun q => { q with files := setTextAt q.files j m.value }) }
        match setFileDirty st2 f.name true with
        | Except.ok st3 => st3
        | Except.error _ => st2

/-- `_updateBundle()`: flush every file currently marked dirty back into the
bundle's stored text (the filtered list is computed before any flush runs,
as in the source). -/
def updateBundle (s : ProjectState) : ProjectState :=
  match s.project with
  | none => s
  | some p => (dirtyIndices s p).foldl flushOne s

/-- `get()`: `this._updateBundle(); return this._project;`. -/
def get (s : ProjectState) : Option ProjectBundle × ProjectState :=
  let s1 := updateBundle s
  (s1.project, s1)

/-- `getFiles(...types)`: bundle-order names, filtered to the given types
when at least one is supplied. -/
def getFiles (s : ProjectState) (types : List ProjectFileType) :
    Except ProjError (List String) :=
  match s.project with
  | none => Except.error ProjError.notLoaded
  | some p =>
    Except.ok
      ((p.files.filter (fun f =>
        if 0 < types.length then types.contains f.type else true)).map ProjectFile.name)

/-- `load(filename)`: guard, fetch + parse (`_loadBundle` assigns the parsed
bundle), then the three environment-configuration steps.  The fetch/parse
outcome and the success of the compiler-context registration are supplied by
the environment.  The returned pair is (the promise's outcome, the state of
the instance afterwards). -/
def load (s : ProjectState) (fetched : Except ProjError ProjectBundle)
    (envOk : Bool) : Except ProjError Unit × ProjectState :=
  match s.project with
  | some _ => (Except.error ProjError.alreadyLoaded, s)
  | none =>
    match fetched with
    | Except.error e => (Except.error e, s)
    | Except.ok bundle =>
      let s1 := { s with project := some bundle }
      if envOk then (Except.ok (), s1)
      else (Except.error ProjError.environmentFailure, s1)

/-- State-threading map used to render the successive `getFileModel` calls
of `emit` (one per file name, in order). -/
def mapStateM (f : ProjectState → String → Except ProjError (Model × ProjectState)) :
    ProjectState → List String → Except ProjError (List Model × ProjectState)
  | s, [] => Except.ok ([], s)
  | s, n :: ns =>
    match f s n with
    | Except.error e => Except.error e
    | Except.ok (m, s1) =>
      match mapStateM f s1 ns with
      | Except.error e => Except.error e
      | Except.ok (ms, s2) => Except.ok (m :: ms, s2)

/-- `emit()`: compile all `Definition`/`TypeScript` files through the worker
session (fan-out in bundle order, results in request order), drop skipped
results, strip the `file://` scheme, then append one pass-through `EmitFile`
per remaining file from its current buffer, collapsing the first `/./` of
the buffer's path. -/
def emit (s : ProjectState) (client : String → EmitOutput) :
    Except ProjError (List EmitFile × ProjectState) :=
  match s.project with
  | none => Except.error ProjError.notLoaded
  | some p =>
    let compiledNames := (p.files.filter (fun f => isCompiled f.type)).map ProjectFile.name
    match mapStateM getFileModel s compiledNames with
    | Except.error e => Except.error e
    | Except.ok (models, s1) =>
      let uris := models.map (fun m => "file://" ++ m.path)
      let outputs := uris.map client
      let emitted := outputs.foldl
        (fun prev o => if o.emitSkipped then prev else prev ++ o.outputFiles) []
      let compiledEmit := emitted.map
        (fun o => { name := replaceFirst o.name "file://" "", text := o.text : EmitFile })
      let passNames := (p.files.filter (fun f => !isCompiled f.type)).map ProjectFile.name
      match mapStateM getFileModel s1 passNames with
      | Except.error e => Except.error e
      | Except.ok (passModels, s2) =>
        let passEmit := passModels.map
          (fun m => { name := replaceFirst m.path "/./" "/", text := m.value : EmitFile })
        Except.ok (compiledEmit ++ passEmit, s2)

end Project

/-- Consistency of the side table with the loaded bundle: every cached model
carries the monaco `Uri` path of its own file.  Every model the system
creates (`createMonacoModel`) satisfies this, so it is an invariant of every
reachable state. -/
def modelsConsistentB (s : ProjectState) : Bool :=
  match s.project with
  | none => true
  | some p =>
    (List.range p.files.length).all (fun i =>
      match (s.fileMap i).model, p.files.get? i with
      | some m, some f => m.path = uriFilePath f.name
      | _, _ => true)

/-- The current buffer content of the file named `n` (the value seen through
the buffer accessor): the cached model's value when one exists, else the
file's stored text. -/
def bufferValueOf (s : ProjectState) (p : ProjectBundle) (n : String) : String :=
  match findFile p.files n with
  | some (i, f) => bufferValueAt s i f
  | none => ""

/-- Expected compiled part of `emit`'s output: the worker results of the
compiled files in bundle order, skipped results dropped, each output file's
`file://` scheme stripped. -/
def compiledOutputs (p : ProjectBundle) (client : String → EmitOutput) :
    List EmitFile :=
  (((p.files.filter (fun f => isCompiled f.type)).map
      (fun f => client (uriToString f.name))).foldl
      (fun prev o => if o.emitSkipped then prev else prev ++ o.outputFiles) []).map
    (fun o => { name := replaceFirst o.name "file://" "", text := o.text })

/-- Expected pass-through part of `emit`'s output: one `EmitFile` per
non-compiled file in bundle order, text from the current buffer, path with
the first `/./` segment collapsed. -/
def passOutputs (s : ProjectState) (p : ProjectBundle) : List EmitFile :=
  (p.files.filter (fun f => !isCompiled f.type)).map
    (fun f => { name := replaceFirst (uriFilePath f.name) "/./" "/",
                text := bufferValueOf s p f.name })

/-- The compiled files that actually contribute entries to `emit`'s output:
those whose worker result was not skipped. -/
def contributingFiles (p : ProjectBundle) (client : String → EmitOutput) :
    List ProjectFile :=
  p.files.filter (fun g => isCompiled g.type && !(client (uriToString g.name)).emitSkipped)

/-- The compiled part of `emit`'s output expressed over the contributing
files only. -/
def contributedOutputs (p : ProjectBundle) (client : String → EmitOutput) :
    List EmitFile :=
  (((contributingFiles p client).map
      (fun g => (client (uriToString g.name)).outputFiles)).flatten).map
    (fun o => { name := replaceFirst o.name "file://" "", text := o.text })

/-! ### Sample data used by the concrete witnesses and counterexamples -/

/-- A one-file bundle (the scenario bundle of the specification). -/
def bundleA : ProjectBundle :=
  { files := [{ name := "a.ts", text := "let x=1;", type := ProjectFileType.TypeScript }]
    environmentFiles := []
    tsconfig := { compilerOptions := none } }

/-- `bundleA` loaded, no buffers created yet. -/
def stA : ProjectState :=
  { project := some bundleA, fileMap := fun _ => emptyFileData, nextModelId := 0 }

/-- The round-trip scenario on `stA`: create the buffer for `a.ts`, mark the
file dirty, then edit the buffer content to `"edited"`. -/
def c1run : ProjectState :=
  match Project.getFileModel stA "a.ts" with
  | Except.ok (_, s1) =>
    match Project.setFileDirty s1 "a.ts" false with
    | Except.ok s2 => Project.setModelValue s2 "a.ts" "edited"
    | Except.error _ => s1
  | Except.error _ => stA

/-- The model created on the first `getFileModel("a.ts")` call on `stA`. -/
def modelA : Model :=
  { id := 0, path := "/a.ts", language := "typescript", value := "let x=1;" }

/-- `stA` after the model for `a.ts` has been created and cached. -/
def stA1 : ProjectState :=
  { project := some bundleA
    fileMap := upd (fun _ => emptyFileData) 0 { dirty := false, model := some modelA }
    nextModelId := 1 }

/-- A two-file bundle: one compiled file and one pass-through file. -/
def bundleB : ProjectBundle :=
  { files := [{ name := "a.ts", text := "let x=1;", type := ProjectFileType.TypeScript },
              { name := "readme.md", text := "hello", type := ProjectFileType.Markdown }]
    environmentFiles := []
    tsconfig := { compilerOptions := none } }

/-- `bundleB` loaded, no buffers created yet. -/
def stB : ProjectState :=
  { project := some bundleB, fileMap := fun _ => emptyFileData, nextModelId := 0 }

/-- A worker that compiles `a.ts` and skips everything else. -/
def clientB : String → EmitOutput := fun u =>
  if u = "file:///a.ts" then
    { emitSkipped := false, outputFiles := [{ name := "file:///a.js", text := "var x=1;" }] }
  else { emitSkipped := true, outputFiles := [] }

/-- A worker that skips every file. -/
def clientSkipAll : String → EmitOutput := fun _ =>
  { emitSkipped := true, outputFiles := [] }

/-- A bundle with a pass-through file whose name holds two `/./` segments. -/
def bundleC4 : ProjectBundle :=
  { files := [{ name := "foo/./bar/./baz.md", text := "hello", type := ProjectFileType.Markdown }]
    environmentFiles := []
    tsconfig := { compilerOptions := none } }

/-- `bundleC4` loaded, no buffers created yet. -/
def stC4 : ProjectState :=
  { project := some bundleC4, fileMap := fun _ => emptyFileData, nextModelId := 0 }

/-! ### Basic lemmas about the helper functions -/

theorem upd_self (f : Nat → ProjectFileData) (i : Nat) (v : ProjectFileData) :
    upd f i v i = v := by
  simp [upd]

theorem upd_ne (f : Nat → ProjectFileData) (i j : Nat) (v : ProjectFileData)
    (h : j ≠ i) : upd f i v j = f j := by
  simp [upd, h]

theorem findFile_some {l : List ProjectFile} {n : String} {i : Nat} {f : ProjectFile} :
    findFile l n = some (i, f) → l.get? i = some f ∧ f.name = n := by
  induction l generalizing i with
  | nil => intro h; simp [findFile] at h
  | cons g gs ih =>
    intro h
    rw [findFile] at h
    by_cases hg : g.name = n
    · rw [if_pos hg] at h
      simp only [Option.some.injEq, Prod.mk.injEq] at h
      obtain ⟨hi, hf⟩ := h
      subst hi; subst hf
      exact ⟨rfl, hg⟩
    · rw [if_neg hg] at h
      cases hr : findFile gs n with
      | none => rw [hr] at h; simp at h
      | some q =>
        rw [hr] at h
        simp only [Option.map_some', Option.some.injEq, Prod.mk.injEq] at h
        obtain ⟨hi, hf⟩ := h
        obtain ⟨j, g'⟩ := q
        subst hf
        obtain ⟨h1, h2⟩ := ih hr
        subst hi
        exact ⟨h1, h2⟩

theorem findFile_of_nodup {l : List ProjectFile} {i : Nat} {f : ProjectFile}
    (hnd : (l.map ProjectFile.name).Nodup) (hf : l.get? i = some f) :
    findFile l f.name = some (i, f) := by
  induction l generalizing i with
  | nil => simp at hf
  | cons g gs ih =>
    simp only [List.map_cons, List.nodup_cons] at hnd
    obtain ⟨hg, hnd'⟩ := hnd
    cases i with
    | zero =>
      simp only [List.get?] at hf
      injection hf with hf
      subst hf
      simp [findFile]
    | succ j =>
      simp only [List.get?] at hf
      have hfm : f ∈ gs := List.get?_mem hf
      have hne : g.name ≠ f.name := by
        intro he
        exact hg (he ▸ List.mem_map_of_mem ProjectFile.name hfm)
      rw [findFile, if_neg hne, ih hnd' hf]
      rfl

theorem findFile_none {l : List ProjectFile} {n : String} :
    findFile l n = none ↔ n ∉ l.map ProjectFile.name := by
  induction l with
  | nil => simp [findFile]
  | cons g gs ih =>
    by_cases hg : g.name = n
    · simp [findFile, hg]
    · simp [findFile, hg, Option.map_eq_none', ih, Ne.symm hg]

theorem setTextAt_get_ne {l : List ProjectFile} {j : Nat} {v : String} {k : Nat}
    (h : k ≠ j) : (setTextAt l j v).get? k = l.get? k := by
  induction l generalizing j k with
  | nil => simp [setTextAt]
  | cons f fs ih =>
    cases j with
    | zero =>
      cases k with
      | zero => exact absurd rfl h
      | succ k' => simp [setTextAt]
    | succ j' =>
      cases k with
      | zero => simp [setTextAt]
      | succ k' =>
        simp only [setTextAt, List.get?]
        exact ih (fun he => h (congrArg Nat.succ he))

theorem setTextAt_get_eq {l : List ProjectFile} {j : Nat} {v : String} {f : ProjectFile}
    (h : l.get? j = some f) :
    (setTextAt l j v).get? j = some { f with text := v } := by
  induction l generalizing j with
  | nil => simp at h
  | cons g gs ih =>
    cases j with
    | zero =>
      simp only [List.get?] at h
      injection h with h
      subst h
      rfl
    | succ j' =>
      simp only [List.get?] at h ⊢
      exact ih h

theorem setTextAt_map_name (l : List ProjectFile) (j : Nat) (v : String) :
    (setTextAt l j v).map ProjectFile.name = l.map ProjectFile.name := by
  induction l generalizing j with
  | nil => rfl
  | cons f fs ih =>
    cases j with
    | zero => rfl
    | succ j' => simpa [setTextAt] using ih j'

theorem setTextAt_map_type (l : List ProjectFile) (j : Nat) (v : String) :
    (setTextAt l j v).map ProjectFile.type = l.map ProjectFile.type := by
  induction l generalizing j with
  | nil => rfl
  | cons f fs ih =>
    cases j with
    | zero => rfl
    | succ j' => simpa [setTextAt] using ih j'

theorem setTextAt_length (l : List ProjectFile) (j : Nat) (v : String) :
    (setTextAt l j v).length = l.length := by
  induction l generalizing j with
  | nil => rfl
  | cons f fs ih =>
    cases j with
    | zero => rfl
    | succ j' => simpa [setTextAt] using ih j'

/-! ### Behaviour of the single-file operations -/

theorem getFileModel_spec {s : ProjectState} {p : ProjectBundle} {n : String}
    {i : Nat} {f : ProjectFile}
    (hp : s.project = some p) (hf : findFile p.files n = some (i, f)) :
    ∃ m s', Project.getFileModel s n = Except.ok (m, s') ∧
      s'.project = s.project ∧
      (∀ j, j ≠ i → s'.fileMap j = s.fileMap j) ∧
      (s'.fileMap i).dirty = (s.fileMap i).dirty ∧
      (s'.fileMap i).model = some m ∧
      m.value = bufferValueAt s i f ∧
      ((s.fileMap i).model = none → m.path = uriFilePath f.name) ∧
      (∀ m0, (s.fileMap i).model = some m0 → m = m0 ∧ s' = s) := by
  cases hm : (s.fileMap i).model with
  | some m0 =>
    refine ⟨m0, s, ?_, rfl, fun j _ => rfl, rfl, hm, ?_, ?_, ?_⟩
    · simp [Project.getFileModel, hp, hf, hm]
    · simp [bufferValueAt, hm]
    · intro h
      exact Option.noConfusion h
    · intro m1 h1
      injection h1 with h1
      exact ⟨h1, rfl⟩
  | none =>
    refine ⟨createMonacoModel s.nextModelId f,
      { s with
        fileMap := upd s.fileMap i
          { s.fileMap i with model := some (createMonacoModel s.nextModelId f) }
        nextModelId := s.nextModelId + 1 }, ?_, rfl, ?_, ?_, ?_, ?_, ?_, ?_⟩
    · simp [Project.getFileModel, hp, hf, hm]
    · intro j hj
      exact upd_ne _ _ _ _ hj
    · show (upd s.fileMap i _ i).dirty = _
      rw [upd_self]
    · show (upd s.fileMap i _ i).model = _
      rw [upd_self]
    · simp [createMonacoModel, bufferValueAt, hm]
    · intro _
      rfl
    · intro m0 h0
      exact Option.noConfusion h0

theorem setFileDirty_found {s : ProjectState} {p : ProjectBundle} {n : String}
    {i : Nat} {f : ProjectFile} (r : Bool)
    (hp : s.project = some p) (hf : findFile p.files n = some (i, f)) :
    Project.setFileDirty s n r = Except.ok
      { s with fileMap := upd s.fileMap i { s.fileMap i with dirty := !r } } := by
  simp [Project.setFileDirty, hp, hf]

theorem flushOne_spec {s : ProjectState} {p : ProjectBundle} {j : Nat} {f : ProjectFile}
    (hp : s.project = some p) (hnd : (p.files.map ProjectFile.name).Nodup)
    (hf : p.files.get? j = some f) :
    ∃ q m,
      (Project.flushOne s j).project = some q ∧
      q.files = setTextAt p.files j (bufferValueAt s j f) ∧
      q.environmentFiles = p.environmentFiles ∧
      q.tsconfig = p.tsconfig ∧
      (∀ k, k ≠ j → (Project.flushOne s j).fileMap k = s.fileMap k) ∧
      ((Project.flushOne s j).fileMap j).dirty = false ∧
      ((Project.flushOne s j).fileMap j).model = some m ∧
      m.value = bufferValueAt s j f := by
  have hff : findFile p.files f.name = some (j, f) := findFile_of_nodup hnd hf
  obtain ⟨m, s', hgm, hproj, hmapne, hdirty, hmodel, hval, _, _⟩ :=
    getFileModel_spec hp hff
  rw [hp] at hproj
  have hnd2 : ((setTextAt p.files j m.value).map ProjectFile.name).Nodup := by
    rw [setTextAt_map_name]; exact hnd
  have hget2 : (setTextAt p.files j m.value).get? j = some { f with text := m.value } :=
    setTextAt_get_eq hf
  have hff2 : findFile (setTextAt p.files j m.value) f.name =
      some (j, { f with text := m.value }) :=
    findFile_of_nodup hnd2 hget2
  have hq2 : ({ s' with
      project := some { p with files := setTextAt p.files j m.value } }
      : ProjectState).project =
      some { p with files := setTextAt p.files j m.value } := rfl
  have hsd := setFileDirty_found true hq2 hff2
  have hstep : Project.flushOne s j =
      { s' with
        project := some { p with files := setTextAt p.files j m.value }
        fileMap := upd s'.fileMap j { s'.fileMap j with dirty := !true } } := by
    simp only [Project.flushOne, hp, hf, hgm, hproj, Option.map_some']
    rw [hsd]
  rw [hstep]
  refine ⟨{ p with files := setTextAt p.files j m.value }, m, rfl, ?_, rfl, rfl, ?_, ?_, ?_, hval⟩
  · rw [hval]
  · intro k hk
    show upd s'.fileMap j _ k = _
    rw [upd_ne _ _ _ _ hk]
    exact hmapne k hk
  · show (upd s'.fileMap j _ j).dirty = false
    rw [upd_self]
    rfl
  · show (upd s'.fileMap j _ j).model = some m
    rw [upd_self]
    exact hmodel

/-! ### The flush loop of `_updateBundle` -/

theorem foldl_flushOne_spec (L : List Nat) :
    ∀ (s : ProjectState) (p : ProjectBundle),
      s.project = some p →
      (p.files.map ProjectFile.name).Nodup →
      (∀ j, j ∈ L → j < p.files.length) →
      L.Nodup →
      ∃ p',
        (L.foldl Project.flushOne s).project = some p' ∧
        p'.files.map ProjectFile.name = p.files.map ProjectFile.name ∧
        p'.files.map ProjectFile.type = p.files.map ProjectFile.type ∧
        p'.environmentFiles = p.environmentFiles ∧
        p'.tsconfig = p.tsconfig ∧
        (∀ k, k ∉ L →
          (p'.files.get? k).map ProjectFile.text = (p.files.get? k).map ProjectFile.text ∧
          (L.foldl Project.flushOne s).fileMap k = s.fileMap k) ∧
        (∀ k f, k ∈ L → p.files.get? k = some f →
          (p'.files.get? k).map ProjectFile.text = some (bufferValueAt s k f) ∧
          ((L.foldl Project.flushOne s).fileMap k).dirty = false) := by
  induction L with
  | nil =>
    intro s p hp hnd _ _
    exact ⟨p, hp, rfl, rfl, rfl, rfl, fun k _ => ⟨rfl, rfl⟩,
      fun k f hk _ => absurd hk (List.not_mem_nil k)⟩
  | cons j L' ih =>
    intro s p hp hnd hb hndL
    have hj : j < p.files.length := hb j (List.mem_cons_self j L')
    have hjL' : j ∉ L' := (List.nodup_cons.mp hndL).1
    have hndL' : L'.Nodup := (List.nodup_cons.mp hndL).2
    obtain ⟨f, hf⟩ : ∃ f, p.files.get? j = some f := by
      rw [List.get?_eq_get hj]
      exact ⟨_, rfl⟩
    obtain ⟨q, m, hq, hqfiles, hqenv, hqts, hfm_ne, hfm_dirty, hfm_model, hm_val⟩ :=
      flushOne_spec hp hnd hf
    have hqnames : q.files.map ProjectFile.name = p.files.map ProjectFile.name := by
      rw [hqfiles, setTextAt_map_name]
    have hqtypes : q.files.map ProjectFile.type = p.files.map ProjectFile.type := by
      rw [hqfiles, setTextAt_map_type]
    have hqlen : q.files.length = p.files.length := by
      rw [hqfiles, setTextAt_length]
    have hndq : (q.files.map ProjectFile.name).Nodup := by
      rw [hqnames]; exact hnd
    have hbq : ∀ i, i ∈ L' → i < q.files.length := by
      intro i hi
      rw [hqlen]
      exact hb i (List.mem_cons_of_mem j hi)
    obtain ⟨p', hp', hnames', htypes', henv', hts', hout', hin'⟩ :=
      ih (Project.flushOne s j) q hq hndq hbq hndL'
    have hfold : (j :: L').foldl Project.flushOne s =
        L'.foldl Project.flushOne (Project.flushOne s j) := rfl
    refine ⟨p', by rw [hfold]; exact hp',
      by rw [hnames', hqnames], by rw [htypes', hqtypes],
      by rw [henv', hqenv], by rw [hts', hqts], ?_, ?_⟩
    · intro k hk
      have hkj : k ≠ j := fun he => hk (he ▸ List.mem_cons_self j L')
      have hkL' : k ∉ L' := fun hm' => hk (List.mem_cons_of_mem j hm')
      obtain ⟨ht, hfm⟩ := hout' k hkL'
      constructor
      · rw [ht, hqfiles, setTextAt_get_ne hkj]
      · rw [hfold, hfm]
        exact hfm_ne k hkj
    · intro k fk hk hfk
      rcases List.mem_cons.mp hk with hkj | hkL'
      · subst hkj
        have hfkf : fk = f := by
          rw [hf] at hfk
          injection hfk with h
          exact h.symm
        subst hfkf
        obtain ⟨ht, hfm⟩ := hout' k hjL'
        constructor
        · rw [ht, hqfiles, setTextAt_get_eq hf]
          rfl
        · rw [hfold, hfm]
          exact hfm_dirty
      · have hkj : k ≠ j := fun he => hjL' (he ▸ hkL')
        have hqk : q.files.get? k = some fk := by
          rw [hqfiles, setTextAt_get_ne hkj]
          exact hfk
        obtain ⟨ht, hd⟩ := hin' k fk hkL' hqk
        constructor
        · rw [ht]
          have : bufferValueAt (Project.flushOne s j) k fk = bufferValueAt s k fk := by
            unfold bufferValueAt
            rw [hfm_ne k hkj]
          rw [this]
        · rw [hfold]
          exact hd

theorem mem_dirtyIndices {s : ProjectState} {p : ProjectBundle}
    (hp : s.project = some p) (hnd : (p.files.map ProjectFile.name).Nodup) (j : Nat) :
    j ∈ Project.dirtyIndices s p ↔
      (∃ f, p.files.get? j = some f) ∧ (s.fileMap j).dirty = true := by
  unfold Project.dirtyIndices
  rw [List.mem_filter, List.mem_range]
  constructor
  · rintro ⟨hj, hpred⟩
    obtain ⟨f, hf⟩ : ∃ f, p.files.get? j = some f := by
      rw [List.get?_eq_get hj]
      exact ⟨_, rfl⟩
    rw [hf] at hpred
    refine ⟨⟨f, hf⟩, ?_⟩
    have hff : findFile p.files f.name = some (j, f) := findFile_of_nodup hnd hf
    simp only [Project.isDirtyB, Project.isFileDirty, hp, hff] at hpred
    exact hpred
  · rintro ⟨⟨f, hf⟩, hd⟩
    have hj : j < p.files.length := by
      rcases List.get?_eq_some.mp hf with ⟨h, _⟩
      exact h
    refine ⟨hj, ?_⟩
    rw [hf]
    have hff : findFile p.files f.name = some (j, f) := findFile_of_nodup hnd hf
    simp only [Project.isDirtyB, Project.isFileDirty, hp, hff]
    exact hd

theorem dirtyIndices_nodup (s : ProjectState) (p : ProjectBundle) :
    (Project.dirtyIndices s p).Nodup :=
  (List.nodup_range p.files.length).filter _

theorem dirtyIndices_lt (s : ProjectState) (p : ProjectBundle) :
    ∀ j, j ∈ Project.dirtyIndices s p → j < p.files.length := by
  intro j hj
  unfold Project.dirtyIndices at hj
  exact List.mem_range.mp (List.mem_filter.mp hj).1

/-- Characterization of `_updateBundle` on a loaded project with unique file
names: file names, types, environment files and configuration are preserved;
files marked dirty get their buffer's current value as text and their dirty
flag cleared; files not marked dirty are untouched, as is their side-table
entry. -/
theorem updateBundle_spec {s : ProjectState} {p : ProjectBundle}
    (hp : s.project = some p) (hnd : (p.files.map ProjectFile.name).Nodup) :
    ∃ p',
      (Project.updateBundle s).project = some p' ∧
      p'.files.map ProjectFile.name = p.files.map ProjectFile.name ∧
      p'.files.map ProjectFile.type = p.files.map ProjectFile.type ∧
      p'.environmentFiles = p.environmentFiles ∧
      p'.tsconfig = p.tsconfig ∧
      (∀ k f, p.files.get? k = some f → (s.fileMap k).dirty = false →
        (p'.files.get? k).map ProjectFile.text = some f.text ∧
        (Project.updateBundle s).fileMap k = s.fileMap k) ∧
      (∀ k f, p.files.get? k = some f → (s.fileMap k).dirty = true →
        (p'.files.get? k).map ProjectFile.text = some (bufferValueAt s k f) ∧
        ((Project.updateBundle s).fileMap k).dirty = false) := by
  have hub : Project.updateBundle s =
      (Project.dirtyIndices s p).foldl Project.flushOne s := by
    simp only [Project.updateBundle, hp]
  obtain ⟨p', hp', hnames, htypes, henv, hts, hout, hin⟩ :=
    foldl_flushOne_spec (Project.dirtyIndices s p) s p hp hnd
      (dirtyIndices_lt s p) (dirtyIndices_nodup s p)
  rw [← hub] at hp' hout hin
  refine ⟨p', hp', hnames, htypes, henv, hts, ?_, ?_⟩
  · intro k f hf hd
    have hk : k ∉ Project.dirtyIndices s p := by
      rw [mem_dirtyIndices hp hnd]
      rintro ⟨-, hd'⟩
      rw [hd] at hd'
      exact Bool.false_ne_true hd'
    obtain ⟨ht, hfm⟩ := hout k hk
    refine ⟨?_, hfm⟩
    rw [ht, hf]
    rfl
  · intro k f hf hd
    have hk : k ∈ Project.dirtyIndices s p := by
      rw [mem_dirtyIndices hp hnd]
      exact ⟨⟨f, hf⟩, hd⟩
    exact hin k f hk hf

/-! ### The emit pipeline -/

theorem modelsConsistentB_iff {s : ProjectState} {p : ProjectBundle}
    (hp : s.project = some p) :
    modelsConsistentB s = true ↔
      ∀ i f m, p.files.get? i = some f → (s.fileMap i).model = some m →
        m.path = uriFilePath f.name := by
  unfold modelsConsistentB
  rw [hp, List.all_eq_true]
  constructor
  · intro h i f m hf hm
    have hi : i < p.files.length := (List.get?_eq_some.mp hf).1
    have hx := h i (List.mem_range.mpr hi)
    simp only [hm, hf] at hx
    exact of_decide_eq_true hx
  · intro h x _
    cases hmm : (s.fileMap x).model with
    | none => rfl
    | some m =>
      cases hff : p.files.get? x with
      | none => rfl
      | some f =>
        simp only []
        exact decide_eq_true (h x f m hff hmm)

theorem bufferValueOf_congr {s1 s : ProjectState} {p : ProjectBundle}
    (h : ∀ k g, p.files.get? k = some g → bufferValueAt s1 k g = bufferValueAt s k g)
    (n : String) : bufferValueOf s1 p n = bufferValueOf s p n := by
  unfold bufferValueOf
  cases ha : findFile p.files n with
  | none => rfl
  | some q =>
    obtain ⟨i, f⟩ := q
    obtain ⟨hgi, -⟩ := findFile_some ha
    show bufferValueAt s1 i f = bufferValueAt s i f
    exact h i f hgi

theorem getFileModel_spec_wf {s : ProjectState} {p : ProjectBundle} {n : String}
    {i : Nat} {f : ProjectFile}
    (hp : s.project = some p) (hf : findFile p.files n = some (i, f))
    (hwf : modelsConsistentB s = true) :
    ∃ m s', Project.getFileModel s n = Except.ok (m, s') ∧
      s'.project = some p ∧
      modelsConsistentB s' = true ∧
      m.path = uriFilePath n ∧
      m.value = bufferValueAt s i f ∧
      (∀ k g, p.files.get? k = some g → bufferValueAt s' k g = bufferValueAt s k g) := by
  obtain ⟨hgi, hname⟩ := findFile_some hf
  obtain ⟨m, s', hgm, hproj, hmapne, _, hmodel, hval, hpath_new, hcached⟩ :=
    getFileModel_spec hp hf
  rw [hp] at hproj
  have hpv : ∀ k g, p.files.get? k = some g → bufferValueAt s' k g = bufferValueAt s k g := by
    intro k g hg
    by_cases hk : k = i
    · subst hk
      cases hm0 : (s.fileMap k).model with
      | some m0 =>
        obtain ⟨-, hss⟩ := hcached m0 hm0
        rw [hss]
      | none =>
        have hgf : g = f := by
          rw [hgi] at hg
          injection hg with h
          exact h.symm
        subst hgf
        have h1 : bufferValueAt s' k g = m.value := by
          unfold bufferValueAt
          rw [hmodel]
        rw [h1]
        exact hval
    · unfold bufferValueAt
      rw [hmapne k hk]
  have hpath : m.path = uriFilePath n := by
    cases hm0 : (s.fileMap i).model with
    | some m0 =>
      obtain ⟨hmm, -⟩ := hcached m0 hm0
      rw [hmm, ← hname]
      exact (modelsConsistentB_iff hp).mp hwf i f m0 hgi hm0
    | none =>
      rw [hpath_new hm0, hname]
  refine ⟨m, s', hgm, hproj, ?_, hpath, hval, hpv⟩
  rw [modelsConsistentB_iff hproj]
  intro k g mk hg hmk
  by_cases hk : k = i
  · subst hk
    rw [hmodel] at hmk
    injection hmk with hmk
    subst hmk
    have hgf : g = f := by
      rw [hgi] at hg
      injection hg with h
      exact h.symm
    subst hgf
    rw [hpath, hname]
  · rw [hmapne k hk] at hmk
    exact (modelsConsistentB_iff hp).mp hwf k g mk hg hmk

theorem mapStateM_getFileModel_spec (ns : List String) :
    ∀ (s : ProjectState) (p : ProjectBundle),
      s.project = some p →
      modelsConsistentB s = true →
      (∀ n, n ∈ ns → findFile p.files n ≠ none) →
      ∃ ms s',
        Project.mapStateM Project.getFileModel s ns = Except.ok (ms, s') ∧
        s'.project = some p ∧
        modelsConsistentB s' = true ∧
        (∀ k g, p.files.get? k = some g → bufferValueAt s' k g = bufferValueAt s k g) ∧
        ms.map (fun m => (m.path, m.value)) =
          ns.map (fun n => (uriFilePath n, bufferValueOf s p n)) := by
  induction ns with
  | nil =>
    intro s p hp hwf _
    exact ⟨[], s, rfl, hp, hwf, fun k g _ => rfl, rfl⟩
  | cons n ns' ih =>
    intro s p hp hwf hmem
    have hn : findFile p.files n ≠ none := hmem n (List.mem_cons_self n ns')
    obtain ⟨⟨i, f⟩, hf⟩ : ∃ q, findFile p.files n = some q := by
      cases hq : findFile p.files n with
      | none => exact absurd hq hn
      | some q => exact ⟨q, rfl⟩
    obtain ⟨m, s1, hgm, hproj1, hwf1, hpath, hval, hpv1⟩ :=
      getFileModel_spec_wf hp hf hwf
    obtain ⟨ms, s2, hms, hproj2, hwf2, hpv2, hmapeq⟩ :=
      ih s1 p hproj1 hwf1 (fun n' hn' => hmem n' (List.mem_cons_of_mem n hn'))
    refine ⟨m :: ms, s2, ?_, hproj2, hwf2, ?_, ?_⟩
    · simp only [Project.mapStateM, hgm, hms]
    · intro k g hg
      rw [hpv2 k g hg, hpv1 k g hg]
    · simp only [List.map_cons]
      congr 1
      · rw [hpath, hval]
        unfold bufferValueOf
        rw [hf]
      · rw [hmapeq]
        apply List.map_congr_left
        intro a _
        unfold bufferValueOf
        cases ha : findFile p.files a with
        | none => rfl
        | some q =>
          obtain ⟨i', f'⟩ := q
          obtain ⟨hgi', -⟩ := findFile_some ha
          show (uriFilePath a, bufferValueAt s1 i' f') = (uriFilePath a, bufferValueAt s i' f')
          rw [hpv1 i' f' hgi']

/-- Full characterization of `emit` on a loaded project with unique file
names and a consistent side table: the result is the compiled outputs (in
compiled-file bundle order, skipped results dropped, scheme stripped)
followed by the pass-through outputs (current buffer content, first `/./`
collapsed). -/
theorem emit_eq {s : ProjectState} {p : ProjectBundle} (client : String → EmitOutput)
    (hp : s.project = some p)
    (hwf : modelsConsistentB s = true) :
    ∃ s', Project.emit s client =
      Except.ok (compiledOutputs p client ++ passOutputs s p, s') := by
  have hmem : ∀ (q : ProjectFileType → Bool) (n : String),
      n ∈ (p.files.filter (fun f => q f.type)).map ProjectFile.name →
      findFile p.files n ≠ none := by
    intro q n hn hnone
    rw [findFile_none] at hnone
    obtain ⟨g, hg, hgn⟩ := List.mem_map.mp hn
    exact hnone (hgn ▸ List.mem_map_of_mem ProjectFile.name (List.mem_of_mem_filter hg))
  obtain ⟨ms, s1, hms, hproj1, hwf1, hpv1, hmap1⟩ :=
    mapStateM_getFileModel_spec
      ((p.files.filter (fun f => isCompiled f.type)).map ProjectFile.name) s p hp hwf
      (hmem (fun t => isCompiled t))
  obtain ⟨pms, s2, hms2, hproj2, hwf2, hpv2, hmap2⟩ :=
    mapStateM_getFileModel_spec
      ((p.files.filter (fun f => !isCompiled f.type)).map ProjectFile.name) s1 p hproj1 hwf1
      (hmem (fun t => !isCompiled t))
  have hA : ms.map (fun m => "file://" ++ m.path) =
      (p.files.filter (fun f => isCompiled f.type)).map (fun f => uriToString f.name) := by
    have h1 : ms.map (fun m => "file://" ++ m.path) =
        (ms.map (fun m => (m.path, m.value))).map (fun pr => "file://" ++ pr.1) := by
      rw [List.map_map]
      rfl
    rw [h1, hmap1]
    simp only [List.map_map]
    rfl
  have hB : pms.map
      (fun m => ({ name := replaceFirst m.path "/./" "/", text := m.value } : EmitFile)) =
      passOutputs s p := by
    have h1 : pms.map
        (fun m => ({ name := replaceFirst m.path "/./" "/", text := m.value } : EmitFile)) =
        (pms.map (fun m => (m.path, m.value))).map
          (fun pr => ({ name := replaceFirst pr.1 "/./" "/", text := pr.2 } : EmitFile)) := by
      rw [List.map_map]
      rfl
    rw [h1, hmap2]
    simp only [List.map_map]
    unfold passOutputs
    apply List.map_congr_left
    intro f _
    show ({ name := replaceFirst (uriFilePath f.name) "/./" "/",
            text := bufferValueOf s1 p f.name } : EmitFile) = _
    rw [bufferValueOf_congr hpv1]
  refine ⟨s2, ?_⟩
  simp only [Project.emit, hp, hms, hms2]
  rw [hA, hB]
  unfold compiledOutputs
  rw [List.map_map]
  rfl

/-- The skipped-results-dropping `foldl` of `emit` equals filtering the
skipped results away and flattening the rest. -/
theorem foldl_skip_eq_flatten (l : List EmitOutput) :
    l.foldl (fun prev o => if o.emitSkipped then prev else prev ++ o.outputFiles) [] =
      ((l.filter (fun o => !o.emitSkipped)).map EmitOutput.outputFiles).flatten := by
  suffices h : ∀ init : List OutputFile,
      l.foldl (fun prev o => if o.emitSkipped then prev else prev ++ o.outputFiles) init =
        init ++ ((l.filter (fun o => !o.emitSkipped)).map EmitOutput.outputFiles).flatten by
    simpa using h []
  induction l with
  | nil => intro init; simp
  | cons o os ih =>
    intro init
    cases ho : o.emitSkipped <;>
      simp [List.foldl_cons, ho, ih, List.append_assoc, List.filter_cons]

/-- Pushing the skipped-result filter of `emit` back onto the file list:
filtering the worker results equals restricting to the contributing
files. -/
theorem filter_skip_push (client : String → EmitOutput) (l : List ProjectFile) :
    (((l.filter (fun f => isCompiled f.type)).map
        (fun f => client (uriToString f.name))).filter
        (fun o => !o.emitSkipped)).map EmitOutput.outputFiles =
      (l.filter (fun g => isCompiled g.type && !(client (uriToString g.name)).emitSkipped)).map
        (fun g => (client (uriToString g.name)).outputFiles) := by
  induction l with
  | nil => rfl
  | cons f fs ih =>
    cases hc : isCompiled f.type with
    | false => simp [List.filter_cons, hc, ih]
    | true =>
      cases hs : (client (uriToString f.name)).emitSkipped with
      | false => simp [List.filter_cons, hc, hs, ih]
      | true => simp [List.filter_cons, hc, hs, ih]

/-- The compiled part of `emit`'s output ranges exactly over the compiled
files whose worker result was not skipped. -/
theorem compiledOutputs_eq_contributed (p : ProjectBundle) (client : String → EmitOutput) :
    compiledOutputs p client = contributedOutputs p client := by
  unfold compiledOutputs contributedOutputs contributingFiles
  rw [foldl_skip_eq_flatten]
  congr 1
  rw [filter_skip_push]

/-! ### The claims -/

/-- C1, counterexample: on the one-file project, after creating the buffer,
marking the file dirty and editing the buffer to "edited", a call to
`get()` returns the bundle with the buffer's value flushed into the file's
text — but `isFileDirty` then returns `false`, not `true` as the claim
states: the flush clears the dirty flag (`setFileDirty(name, true)` inside
`_updateBundle` unsets it, because `dirty` is assigned `!reset`). -/
theorem c1_counterexample :
    (Project.get c1run).1 = some
      { files := [{ name := "a.ts", text := "edited", type := ProjectFileType.TypeScript }]
        environmentFiles := []
        tsconfig := { compilerOptions := none } } ∧
    Project.isFileDirty (Project.get c1run).2 "a.ts" = Except.ok false :=
  ⟨rfl, rfl⟩

/-- C1 (amended): for every loaded project with unique file names, in any
state where a file's buffer exists with value `v` and the file is marked
dirty — the state reached after `setFileDirty(name)` and an out-of-band
buffer edit — `get()` returns a bundle whose file at that position has
`text = v`, and `isFileDirty(name)` afterwards returns `false` (the flush
performed by `get()` clears the dirty flag). -/
theorem c1_flush_overwrites_text_but_clears_dirty (s : ProjectState) (p : ProjectBundle)
    (i : Nat) (f : ProjectFile) (v : String) (m : Model)
    (hp : s.project = some p) (hnd : (p.files.map ProjectFile.name).Nodup)
    (hf : p.files.get? i = some f)
    (hm : (s.fileMap i).model = some m) (hv : m.value = v)
    (hd : (s.fileMap i).dirty = true) :
    ∃ p', (Project.get s).1 = some p' ∧
      (p'.files.get? i).map ProjectFile.text = some v ∧
      Project.isFileDirty (Project.get s).2 f.name = Except.ok false := by
  obtain ⟨p', hp', hnames, htypes, henv, hts, hclean, hdirty⟩ := updateBundle_spec hp hnd
  have hbv : bufferValueAt s i f = v := by
    unfold bufferValueAt
    rw [hm]
    exact hv
  obtain ⟨ht, hcleared⟩ := hdirty i f hf hd
  refine ⟨p', hp', by rw [ht, hbv], ?_⟩
  have hndp' : (p'.files.map ProjectFile.name).Nodup := by
    rw [hnames]; exact hnd
  have hgm : (p'.files.get? i).map ProjectFile.name = some f.name := by
    have hcongr := congrArg (fun l => l.get? i) hnames
    simp only [List.get?_map] at hcongr
    rw [hcongr, hf]
    rfl
  obtain ⟨g, hg, hgname⟩ := Option.map_eq_some'.mp hgm
  have hffp' : findFile p'.files f.name = some (i, g) := by
    rw [← hgname]
    exact findFile_of_nodup hndp' hg
  show Project.isFileDirty (Project.updateBundle s) f.name = Except.ok false
  simp only [Project.isFileDirty, hp', hffp']
  rw [hcleared]

/-- C1 witness: the amended statement evaluated on the concrete round-trip
scenario. -/
theorem c1_witness :
    c1run.project = some bundleA ∧
    (c1run.fileMap 0).dirty = true ∧
    (∃ p', (Project.get c1run).1 = some p' ∧
      (p'.files.get? 0).map ProjectFile.text = some "edited" ∧
      Project.isFileDirty (Project.get c1run).2 "a.ts" = Except.ok false) := by
  refine ⟨rfl, rfl, ?_⟩
  exact c1_flush_overwrites_text_but_clears_dirty c1run bundleA 0
    { name := "a.ts", text := "let x=1;", type := ProjectFileType.TypeScript } "edited"
    { id := 0, path := "/a.ts", language := "typescript", value := "edited" }
    rfl (by decide) rfl rfl rfl rfl

/-- C2, counterexample: starting from the unloaded state, a `load` whose
fetch and parse succeed but whose environment-configuration step fails
rejects — yet `isLoaded()` afterwards returns `true`: `_loadBundle` assigns
the parsed bundle before the configuration steps run, and nothing rolls it
back. -/
theorem c2_counterexample :
    (Project.load ProjectState.init (Except.ok bundleA) false).1 =
      Except.error ProjError.environmentFailure ∧
    Project.isLoaded (Project.load ProjectState.init (Except.ok bundleA) false).2 = true :=
  ⟨rfl, rfl⟩

/-- C2 (amended): if the environment-configuration step inside `load` fails
after the bundle is parsed, `load` rejects, but the instance is NOT rolled
back: the parsed bundle stays assigned and `isLoaded()` returns `true`
afterwards. -/
theorem c2_env_failure_leaves_project_loaded (s : ProjectState) (b : ProjectBundle)
    (h : s.project = none) :
    Project.load s (Except.ok b) false =
      (Except.error ProjError.environmentFailure, { s with project := some b }) ∧
    Project.isLoaded (Project.load s (Except.ok b) false).2 = true := by
  constructor <;> simp [Project.load, Project.isLoaded, h]

/-- C2 witness: the amended statement evaluated on the initial state and the
one-file bundle. -/
theorem c2_witness :
    ProjectState.init.project = none ∧
    Project.load ProjectState.init (Except.ok bundleA) false =
      (Except.error ProjError.environmentFailure,
        { ProjectState.init with project := some bundleA }) ∧
    Project.isLoaded (Project.load ProjectState.init (Except.ok bundleA) false).2 = true :=
  ⟨rfl, (c2_env_failure_leaves_project_loaded ProjectState.init bundleA rfl).1,
    (c2_env_failure_leaves_project_loaded ProjectState.init bundleA rfl).2⟩

/-- C3, counterexample: on a loaded project, `isFileDirty` of a name that is
not part of the project returns `Except.ok false` — a boolean, not the
`UnknownFileError` the claim states (`isFileDirty` computes
`Boolean(file && ...)` instead of throwing). -/
theorem c3_counterexample :
    bundleA.files.map ProjectFile.name = ["a.ts"] ∧
    Project.isFileDirty stA "missing" = Except.ok false :=
  ⟨rfl, rfl⟩

/-- C3 (amended): for every loaded project and every name not among the
project's file names, `isFileDirty(name)` returns `false` (no error), while
`setFileDirty(name)` does fail with `UnknownFileError`. -/
theorem c3_unknown_name_dirty_ops (s : ProjectState) (p : ProjectBundle) (n : String)
    (r : Bool) (hp : s.project = some p) (hn : n ∉ p.files.map ProjectFile.name) :
    Project.isFileDirty s n = Except.ok false ∧
    Project.setFileDirty s n r = Except.error (ProjError.unknownFile n) := by
  have hff : findFile p.files n = none := findFile_none.mpr hn
  constructor <;> simp [Project.isFileDirty, Project.setFileDirty, hp, hff]

/-- C3 witness: the amended statement evaluated on the loaded one-file
project and the absent name "missing". -/
theorem c3_witness :
    stA.project = some bundleA ∧
    ("missing" ∉ bundleA.files.map ProjectFile.name) ∧
    (Project.isFileDirty stA "missing" = Except.ok false ∧
      Project.setFileDirty stA "missing" true =
        Except.error (ProjError.unknownFile "missing")) :=
  ⟨rfl, by decide, c3_unknown_name_dirty_ops stA bundleA "missing" true rfl (by decide)⟩

/-- C4, counterexample: a pass-through file named "foo/./bar/./baz.md"
is emitted with path "/foo/bar/./baz.md" — only the FIRST "/./" segment is
collapsed (the source uses a non-global regex replace), so the claim that
ANY "/./" segment is collapsed is false. -/
theorem c4_counterexample :
    (Project.emit stC4 clientSkipAll).map Prod.fst =
      Except.ok [{ name := "/foo/bar/./baz.md", text := "hello" }] ∧
    ("/foo/bar/./baz.md" : String) ≠ "/foo/bar/baz.md" := by
  exact ⟨rfl, by decide⟩

/-- C4 (amended): for every loaded project whose side table is consistent,
`emit()` returns the compiled-file outputs first — in the order the
compiled files appear in the bundle, skipped results dropped, the
`file://` scheme stripped — followed by one `EmitFile` per pass-through
file in bundle order, whose text is the file's current buffer content and
whose path has the FIRST `/./` segment collapsed. -/
theorem c4_emit_output_shape (s : ProjectState) (p : ProjectBundle)
    (client : String → EmitOutput)
    (hp : s.project = some p) (hwf : modelsConsistentB s = true) :
    ∃ s', Project.emit s client =
      Except.ok (compiledOutputs p client ++ passOutputs s p, s') :=
  emit_eq client hp hwf

/-- C4 witness: the amended statement evaluated on the two-file project
with the worker that compiles a.ts. -/
theorem c4_witness :
    stB.project = some bundleB ∧
    modelsConsistentB stB = true ∧
    (∃ s', Project.emit stB clientB =
      Except.ok (compiledOutputs bundleB clientB ++ passOutputs stB bundleB, s')) :=
  ⟨rfl, by decide, c4_emit_output_shape stB bundleB clientB rfl (by decide)⟩

/-- C5: if the worker reports emitSkipped for a compiled file, that file is
not among the contributing files — it adds zero entries to `emit()`'s
result — while the result still consists of the outputs of every
non-skipped compiled file followed by every pass-through file's output. -/
theorem c5_skipped_file_contributes_nothing (s : ProjectState) (p : ProjectBundle)
    (client : String → EmitOutput) (f : ProjectFile)
    (hp : s.project = some p) (hwf : modelsConsistentB s = true)
    (hskip : (client (uriToString f.name)).emitSkipped = true) :
    f ∉ contributingFiles p client ∧
    ∃ s', Project.emit s client =
      Except.ok (contributedOutputs p client ++ passOutputs s p, s') := by
  constructor
  · intro hmem
    unfold contributingFiles at hmem
    have hpred := (List.mem_filter.mp hmem).2
    rw [hskip] at hpred
    simp at hpred
  · obtain ⟨s', hs'⟩ := emit_eq client hp hwf
    refine ⟨s', ?_⟩
    rw [hs', compiledOutputs_eq_contributed]

/-- C5 witness: the statement evaluated on the two-file project with a
worker that skips every file; the pass-through file still appears. -/
theorem c5_witness :
    stB.project = some bundleB ∧
    (clientSkipAll (uriToString "a.ts")).emitSkipped = true ∧
    (({ name := "a.ts", text := "let x=1;", type := ProjectFileType.TypeScript } : ProjectFile)
        ∉ contributingFiles bundleB clientSkipAll ∧
      ∃ s', Project.emit stB clientSkipAll =
        Except.ok (contributedOutputs bundleB clientSkipAll ++ passOutputs stB bundleB, s')) :=
  ⟨rfl, rfl,
    c5_skipped_file_contributes_nothing stB bundleB clientSkipAll
      { name := "a.ts", text := "let x=1;", type := ProjectFileType.TypeScript }
      rfl (by decide) rfl⟩

/-- C6: on a loaded project, `getFiles()` returns exactly the bundle's file
names in bundle order; `getFiles(kinds...)` with at least one kind returns
the order-preserving subset of names whose file kind is among the given
kinds; when no project is loaded, `getFiles` fails with `NotLoadedError`. -/
theorem c6_getFiles_filtered_names (s : ProjectState) (ts : List ProjectFileType) :
    (s.project = none → Project.getFiles s ts = Except.error ProjError.notLoaded) ∧
    (∀ p, s.project = some p → ts = [] →
      Project.getFiles s ts = Except.ok (p.files.map ProjectFile.name)) ∧
    (∀ p, s.project = some p → ts ≠ [] →
      Project.getFiles s ts =
        Except.ok ((p.files.filter (fun f => decide (f.type ∈ ts))).map ProjectFile.name)) := by
  refine ⟨?_, ?_, ?_⟩
  · intro h
    simp [Project.getFiles, h]
  · intro p hp hts
    subst hts
    simp [Project.getFiles, hp]
  · intro p hp hts
    have hpos : 0 < ts.length := List.length_pos.mpr hts
    simp only [Project.getFiles, hp]
    congr 1
    congr 1
    apply List.filter_congr
    intro g _
    rw [if_pos hpos]
    simp

/-- C6 witness: the statement evaluated on the two-file project (all names,
the Markdown subset) and on the unloaded initial state. -/
theorem c6_witness :
    stB.project = some bundleB ∧
    Project.getFiles ProjectState.init [] = Except.error ProjError.notLoaded ∧
    Project.getFiles stB [] = Except.ok (bundleB.files.map ProjectFile.name) ∧
    Project.getFiles stB [ProjectFileType.Markdown] =
      Except.ok ((bundleB.files.filter
        (fun f => decide (f.type ∈ [ProjectFileType.Markdown]))).map ProjectFile.name) :=
  ⟨rfl, (c6_getFiles_filtered_names ProjectState.init []).1 rfl,
    (c6_getFiles_filtered_names stB []).2.1 bundleB rfl rfl,
    (c6_getFiles_filtered_names stB [ProjectFileType.Markdown]).2.2 bundleB rfl (by decide)⟩

/-- C7: a `load` call on an instance whose project is already loaded fails
with `AlreadyLoadedError`, and the instance's state after the failure is the
unchanged state — whatever the fetch outcome or configuration success of the
second call would have been. -/
theorem c7_second_load_fails_state_unchanged (s : ProjectState) (p : ProjectBundle)
    (fetched : Except ProjError ProjectBundle) (envOk : Bool)
    (hp : s.project = some p) :
    Project.load s fetched envOk = (Except.error ProjError.alreadyLoaded, s) := by
  simp [Project.load, hp]

/-- C7 witness: the statement evaluated on the loaded one-file project. -/
theorem c7_witness :
    stA.project = some bundleA ∧
    Project.load stA (Except.ok bundleB) true = (Except.error ProjError.alreadyLoaded, stA) :=
  ⟨rfl, c7_second_load_fails_state_unchanged stA bundleA (Except.ok bundleB) true rfl⟩

/-- C8: `get()` never fails: when no project is loaded it returns the absent
result with the state unchanged, and when a project (with unique file names)
is loaded it returns the bundle with every dirty file's text overwritten by
its buffer's current value and every clean file's text unchanged. -/
theorem c8_get_never_fails_and_flushes (s : ProjectState) :
    (s.project = none → Project.get s = (none, s)) ∧
    (∀ p, s.project = some p → (p.files.map ProjectFile.name).Nodup →
      ∃ p', (Project.get s).1 = some p' ∧
        ∀ k f, p.files.get? k = some f →
          (p'.files.get? k).map ProjectFile.text =
            some (if (s.fileMap k).dirty then bufferValueAt s k f else f.text)) := by
  constructor
  · intro h
    have hub : Project.updateBundle s = s := by
      simp [Project.updateBundle, h]
    simp only [Project.get, hub, h]
  · intro p hp hnd
    obtain ⟨p', hp', _, _, _, _, hclean, hdirty⟩ := updateBundle_spec hp hnd
    refine ⟨p', hp', ?_⟩
    intro k f hf
    cases hd : (s.fileMap k).dirty with
    | false =>
      obtain ⟨ht, _⟩ := hclean k f hf hd
      simpa [hd] using ht
    | true =>
      obtain ⟨ht, _⟩ := hdirty k f hf hd
      simpa [hd] using ht

/-- C8 witness: the statement evaluated on the unloaded initial state and on
the loaded two-file project. -/
theorem c8_witness :
    ProjectState.init.project = none ∧
    Project.get ProjectState.init = (none, ProjectState.init) ∧
    stB.project = some bundleB ∧
    (bundleB.files.map ProjectFile.name).Nodup ∧
    (∃ p', (Project.get stB).1 = some p' ∧
      ∀ k f, bundleB.files.get? k = some f →
        (p'.files.get? k).map ProjectFile.text =
          some (if (stB.fileMap k).dirty then bufferValueAt stB k f else f.text)) :=
  ⟨rfl, (c8_get_never_fails_and_flushes ProjectState.init).1 rfl, rfl, by decide,
    (c8_get_never_fails_and_flushes stB).2 bundleB rfl (by decide)⟩

/-- C9: two calls to `getFileModel(name)` return the identical buffer
handle: the handle created (or found) by the first call is returned
unchanged by the second call, and the second call does not change the
state. -/
theorem c9_getFileModel_idempotent (s : ProjectState) (n : String) (m : Model)
    (s1 : ProjectState) (h : Project.getFileModel s n = Except.ok (m, s1)) :
    Project.getFileModel s1 n = Except.ok (m, s1) := by
  cases hp : s.project with
  | none =>
    simp only [Project.getFileModel, hp] at h
    exact Except.noConfusion h
  | some p =>
    cases hff : findFile p.files n with
    | none =>
      simp only [Project.getFileModel, hp, hff] at h
      exact Except.noConfusion h
    | some q =>
      obtain ⟨i, f⟩ := q
      cases hm : (s.fileMap i).model with
      | some m0 =>
        simp only [Project.getFileModel, hp, hff, hm] at h
        injection h with h
        injection h with h1 h2
        subst h1
        subst h2
        simp only [Project.getFileModel, hp, hff, hm]
      | none =>
        simp only [Project.getFileModel, hp, hff, hm] at h
        injection h with h
        injection h with h1 h2
        subst h1
        subst h2
        simp only [Project.getFileModel, hp, hff, upd_self]

/-- C9 witness: the first call on the loaded one-file project creates the
model; the second call returns the identical handle and state. -/
theorem c9_witness :
    Project.getFileModel stA "a.ts" = Except.ok (modelA, stA1) ∧
    Project.getFileModel stA1 "a.ts" = Except.ok (modelA, stA1) := by
  have h1 : Project.getFileModel stA "a.ts" = Except.ok (modelA, stA1) := rfl
  exact ⟨h1, c9_getFileModel_idempotent stA "a.ts" modelA stA1 h1⟩

/-- C10: `get()` on a loaded project with unique file names modifies only
the text of files currently marked dirty: the file names, their kinds, the
sequence order and length, the environment files and the compiler
configuration are unchanged, and files not marked dirty keep their stored
text. -/
theorem c10_get_frame (s : ProjectState) (p : ProjectBundle)
    (hp : s.project = some p) (hnd : (p.files.map ProjectFile.name).Nodup) :
    ∃ p', (Project.get s).1 = some p' ∧
      p'.files.map ProjectFile.name = p.files.map ProjectFile.name ∧
      p'.files.map ProjectFile.type = p.files.map ProjectFile.type ∧
      p'.files.length = p.files.length ∧
      p'.environmentFiles = p.environmentFiles ∧
      p'.tsconfig = p.tsconfig ∧
      (∀ k f, p.files.get? k = some f → (s.fileMap k).dirty = false →
        (p'.files.get? k).map ProjectFile.text = some f.text) := by
  obtain ⟨p', hp', hnames, htypes, henv, hts, hclean, _⟩ := updateBundle_spec hp hnd
  refine ⟨p', hp', hnames, htypes, ?_, henv, hts, fun k f hf hd => (hclean k f hf hd).1⟩
  have h := congrArg List.length hnames
  simpa using h

/-- C10 witness: the statement evaluated on the loaded two-file project. -/
theorem c10_witness :
    stB.project = some bundleB ∧
    (bundleB.files.map ProjectFile.name).Nodup ∧
    (∃ p', (Project.get stB).1 = some p' ∧
      p'.files.map ProjectFile.name = bundleB.files.map ProjectFile.name ∧
      p'.files.map ProjectFile.type = bundleB.files.map ProjectFile.type ∧
      p'.files.length = bundleB.files.length ∧
      p'.environmentFiles = bundleB.environmentFiles ∧
      p'.tsconfig = bundleB.tsconfig ∧
      (∀ k f, bundleB.files.get? k = some f → (stB.fileMap k).dirty = false →
        (p'.files.get? k).map ProjectFile.text = some f.text)) :=
  ⟨rfl, by decide, c10_get_frame stB bundleB rfl (by decide)⟩

end WebEditor
